import Mathlib

/-!
Verification development for the ScoreForge repository (frontend under
`src/frontend`, backend pipeline specified in the design document).  The
TypeScript sources are shallowly embedded: each definition below mirrors a
declaration of the repository, keeping the source's names where Lean allows.
-/

namespace ScoreForge

/-! ## `frontend/types/job.ts` -/

/-- `JobStatus` from `types/job.ts`: `'queued' | 'running' | 'done' | 'error'`. -/
inductive JobStatus where
  | queued
  | running
  | done
  | error
deriving DecidableEq, Repr

/-- A status is terminal when it is `done` or `error`. -/
def JobStatus.isTerminal : JobStatus → Bool
  | .done => true
  | .error => true
  | _ => false

/-- The values admitted by the union type `ClefChoice` in `types/job.ts` line 3:
`'treble' | 'alto' | 'tenor'`. -/
def clefChoiceValues : List String := ["treble", "alto", "tenor"]

/-- The values admitted by `QuantizationGrid` in `types/job.ts`:
`'quarter' | 'eighth' | 'sixteenth'`. -/
def quantizationGridValues : List String := ["quarter", "eighth", "sixteenth"]

/-- The field names declared by the `JobOptions` interface in `types/job.ts`
lines 33-40 (`clef`, `tempo?`, `force_key?`, `detect_time_signature`,
`quantization`, `loose_quantization`). -/
def jobOptionsFieldNames : List String :=
  ["clef", "tempo", "force_key", "detect_time_signature", "quantization", "loose_quantization"]

/-- `JobStatusResponse` from `types/job.ts`, restricted to the fields the
embedded client logic reads (`status`, `progress`, `error?`). -/
structure JobStatusResponse where
  status : JobStatus
  progress : Int
  error : Option String
deriving DecidableEq, Repr

/-! ## `frontend/components/Uploader.tsx` -/

/-- `ACCEPTED_TYPES` from `Uploader.tsx` line 17. -/
def ACCEPTED_TYPES : List String :=
  ["audio/wav", "audio/x-wav", "audio/mpeg", "audio/mp3", "audio/x-m4a",
   "audio/flac", "audio/x-flac"]

/-- `ACCEPTED_EXTENSIONS` from `Uploader.tsx` line 18. -/
def ACCEPTED_EXTENSIONS : List String := [".wav", ".mp3", ".m4a", ".flac"]

/-- The runtime shape of a browser `File` as read by the client code:
`handleFiles` reads `type` and `name`; `size` is carried by every `File`
object and displayed (but never gated on). -/
structure FileCandidate where
  type : String
  name : String
  size : Nat
deriving DecidableEq, Repr

/-- The acceptance test of `handleFiles` (`Uploader.tsx` lines 23-27):
`candidate.type && ACCEPTED_TYPES.includes(candidate.type)` or
`ACCEPTED_EXTENSIONS.some(ext => candidate.name.toLowerCase().endsWith(ext))`.
`candidate.type` is truthy exactly when it is a non-empty string; lowercasing
and the suffix test are taken over the name's character list (the accepted
extensions are ASCII, where `toLowerCase` is per-character lowering). -/
def fileAccepted (candidate : FileCandidate) : Bool :=
  (candidate.type ≠ "" && ACCEPTED_TYPES.contains candidate.type)
    || ACCEPTED_EXTENSIONS.any (fun ext =>
        ext.data.isSuffixOf (candidate.name.data.map Char.toLower))

/-- The observable outcome of one `handleFiles` call: do nothing (empty list),
raise the unsupported-type alert, or pass the candidate to `onFileSelected`. -/
inductive HandleFilesResult where
  | noop
  | alerted
  | selected (f : FileCandidate)
deriving DecidableEq, Repr

/-- `handleFiles` from `Uploader.tsx` lines 22-37: returns on an empty file
list, takes `files[0]` as the candidate, alerts when neither the MIME type nor
the extension is allowed, and otherwise selects the candidate. -/
def handleFiles (files : List FileCandidate) : HandleFilesResult :=
  match files with
  | [] => .noop
  | candidate :: _ =>
    if fileAccepted candidate then .selected candidate else .alerted

/-! ## `frontend/components/OptionsForm.tsx` -/

/-- The `value` fields of the `clefs` array in `OptionsForm.tsx` lines 12-17:
the clef values the options form offers. -/
def clefsOffered : List String := ["treble", "alto", "tenor", "bass"]

/-- The `value` fields of `quantizationOptions` in `OptionsForm.tsx`
lines 19-23. -/
def quantizationOffered : List String := ["quarter", "eighth", "sixteenth"]

/-- The `min` attribute of the tempo number input (`OptionsForm.tsx` line 63). -/
def tempoInputMin : Int := 40

/-- The `max` attribute of the tempo number input (`OptionsForm.tsx` line 64). -/
def tempoInputMax : Int := 240

/-- The force-key input's change handler (`OptionsForm.tsx` line 81) stores
`event.target.value || null`: the empty string becomes `null`. -/
def forceKeyFromInput (value : String) : Option String :=
  if value = "" then none else some value

/-- The `disabled` attribute of each control rendered by `OptionsForm`
(clef select, tempo input, force-key input, quantization select, and the two
checkboxes), all bound to the `disabled` prop. -/
def optionsFormControlDisabledAttrs (disabled : Bool) : List Bool :=
  [disabled, disabled, disabled, disabled, disabled, disabled]

/-! ## `frontend/lib/api.ts` -/

/-- How `xhr.responseText` behaves under `JSON.parse` in the two catch-guarded
parses of `uploadJobWithProgress`: either it is not JSON at all, or it parses
to a value whose `detail` property is a string or absent and whose `job_id`
property is a string or absent. -/
inductive ResponseBody where
  | notJson
  | json (detail : Option String) (job_id : Option String)
deriving DecidableEq, Repr

/-- How the promise returned by `uploadJobWithProgress` settles in `onload`:
`resolve(response)` with the body cast to `CreateJobResponse` (its `job_id`
field), `reject(new Error(msg))`, or `reject(error)` with the raw
`JSON.parse` exception. -/
inductive UploadOutcome where
  | resolved (job_id : Option String)
  | rejectedMsg (msg : String)
  | rejectedParseError
deriving DecidableEq, Repr

/-- The `xhr.onload` handler of `uploadJobWithProgress` (`api.ts` lines 27-43):
for a 2xx status the body is parsed as `CreateJobResponse` and resolved (a
parse failure rejects with the parse error); otherwise the body is parsed as
`{ detail?: string }` and the promise rejects with `payload.detail` if
present, falling back to `Upload failed with status N` when `detail` is
absent or the body is not JSON. -/
def onloadOutcome (status : Nat) (body : ResponseBody) : UploadOutcome :=
  if 200 ≤ status ∧ status < 300 then
    match body with
    | .notJson => .rejectedParseError
    | .json _ job_id => .resolved job_id
  else
    match body with
    | .notJson => .rejectedMsg ("Upload failed with status " ++ toString status)
    | .json detail _ =>
      .rejectedMsg (detail.getD ("Upload failed with status " ++ toString status))

/-! ## `frontend/app/page.tsx` -/

/-- The runtime shape of the `options` state in `page.tsx`: the fields of
`defaultOptions` (lines 12-20), which include `instrument` even though the
declared `JobOptions` interface does not. `tempo` and `force_key` are
nullable. -/
structure PageOptions where
  clef : String
  instrument : String
  tempo : Option Int
  force_key : Option String
  detect_time_signature : Bool
  quantization : String
  loose_quantization : Bool
deriving DecidableEq, Repr

/-- `defaultOptions` from `page.tsx` lines 12-20. -/
def defaultOptions : PageOptions :=
  { clef := "treble"
    instrument := "piano"
    tempo := none
    force_key := none
    detect_time_signature := true
    quantization := "eighth"
    loose_quantization := false }

/-- The `FormData` assembled by `handleSubmit` (`page.tsx` lines 122-134), as
the ordered list of appended `(name, value)` pairs; the `file` entry carries
the file's name. `if (options.tempo)` appends `tempo` only when it is
non-null and non-zero (JavaScript truthiness of a number), and
`if (options.force_key)` appends `force_key` only when it is non-null and
non-empty (truthiness of a string). -/
def submitFormData (fileName : String) (options : PageOptions) : List (String × String) :=
  [("file", fileName), ("clef", options.clef), ("instrument", options.instrument)]
    ++ (match options.tempo with
        | some t => if t = 0 then [] else [("tempo", toString t)]
        | none => [])
    ++ (match options.force_key with
        | some k => if k = "" then [] else [("force_key", k)]
        | none => [])
    ++ [("detect_time_signature", toString options.detect_time_signature),
        ("quantization", options.quantization),
        ("loose_quantization", toString options.loose_quantization)]

/-- `disableControls` from `page.tsx` line 161:
`isUploading || (jobId !== null && status !== 'error' && status !== 'done')`. -/
def disableControls (isUploading : Bool) (jobId : Option String) (status : JobStatus) : Bool :=
  isUploading || (jobId.isSome && status ≠ JobStatus.error && status ≠ JobStatus.done)

/-- The submit button's `disabled` attribute (`page.tsx` line 192):
`disableControls || !selectedFile`. -/
def submitButtonDisabled (isUploading : Bool) (jobId : Option String) (status : JobStatus)
    (selectedFile : Option FileCandidate) : Bool :=
  disableControls isUploading jobId status || selectedFile.isNone

/-- The page state touched by the submission/polling handlers in `page.tsx`. -/
structure PageState where
  selectedFile : Option FileCandidate
  jobId : Option String
  status : JobStatus
  progress : Int
  isUploading : Bool
  error : Option String
deriving DecidableEq, Repr

/-- The state updates performed synchronously by `handleSubmit` before the
upload starts (`page.tsx` lines 136-143). -/
def submitStart (st : PageState) : PageState :=
  { st with isUploading := true, progress := 0, status := .queued,
            error := none, jobId := none }

/-- The state updates after `uploadJobWithProgress` resolves
(`page.tsx` lines 150-152). -/
def uploadSucceeded (st : PageState) (job_id : String) : PageState :=
  { st with isUploading := false, jobId := some job_id }

/-- The state updates in the `catch` branch of `handleSubmit`
(`page.tsx` lines 153-156). -/
def uploadFailed (st : PageState) (msg : String) : PageState :=
  { st with isUploading := false, error := some msg }

/-- The state updates performed by `poll` on a successful status response
(`page.tsx` lines 48-50). -/
def observeStatus (st : PageState) (response : JobStatusResponse) : PageState :=
  { st with status := response.status, progress := response.progress }

/-- `disableControls` applied to a `PageState`. -/
def PageState.controlsDisabled (st : PageState) : Bool :=
  disableControls st.isUploading st.jobId st.status

/-- The polling interval passed to `setInterval` in `page.tsx` line 84,
in milliseconds. -/
def pollIntervalMs : Nat := 1000

/-- The sequence of status responses the polling effect of `page.tsx`
(lines 34-90) consumes, given the stream of successive server responses:
`poll` runs for each response; on a `done` or `error` response it calls
`clearInterval`, so no later response is consumed. -/
def pollTrace : List JobStatusResponse → List JobStatusResponse
  | [] => []
  | r :: rs => if r.status.isTerminal then [r] else r :: pollTrace rs

/-! ## `frontend/components/JobStatus.tsx` -/

/-- The width (in percent) of the progress-bar fill rendered by
`JobStatusPanel` (`JobStatus.tsx` lines 45-59): the bar is only rendered when
`status !== 'error'`, and its width is `status === 'done' ? 100 : progress`. -/
def barWidth (status : JobStatus) (progress : Int) : Option Int :=
  match status with
  | .error => none
  | .done => some 100
  | _ => some progress

/-! ## Spec-modelled backend: Pipeline Runner state machine

The repository's backend (the `backend/` FastAPI application and
transcription pipeline named by the README's repository layout) is not
present under `src/`; only the frontend client is.  The Pipeline Runner and
Job record are therefore modelled from the spec (§3, §4.2).
-/

/-- Modelled from the spec: the outcome of one stage execution by the missing
backend Pipeline Runner — success, success via the documented fallback
substitution, or a failure with no fallback (spec §4.2 fallback policy). -/
inductive StageOutcome where
  | ok
  | fallbackUsed
  | failed
deriving DecidableEq, Repr

/-- Modelled from the spec: the publicly observable part of a Job record of
the missing backend Job Store — `status` and `progress` (spec §3). -/
structure JobRec where
  status : JobStatus
  progress : Nat
deriving DecidableEq, Repr

/-- Modelled from the spec: the fixed progress checkpoint scheme of §4.2
(normalize ends ≤10, transcribe ≤50, quantize ≤65, assemble ≤85,
engrave ≤100). -/
def stageCheckpoints : List Nat := [10, 50, 65, 85, 100]

/-- Modelled from the spec: the missing backend Runner executing the
remaining `(checkpoint, outcome)` stages from current progress `p`, emitting
the Job-record snapshot after each atomic update (§4.2): a stage failure with
no fallback aborts to `error`; completing the final stage sets progress to
100 and transitions to `done` in one update (§4.1 forbids observing
`progress = 100` while `running`); completing an earlier stage raises
`progress` to that stage's checkpoint, fallback substitution included. -/
def runStages (p : Nat) : List (Nat × StageOutcome) → List JobRec
  | [] => [⟨.done, 100⟩]
  | (cp, o) :: rest =>
    match o with
    | .failed => [⟨.error, p⟩]
    | _ =>
      match rest with
      | [] => [⟨.done, 100⟩]
      | _ :: _ => ⟨.running, cp⟩ :: runStages cp rest

/-- Modelled from the spec: the full sequence of Job-record snapshots for one
submitted job — created `queued` at progress 0, dequeued to `running` at
progress 0, then driven through the checkpointed stages (spec §4.2). -/
def pipelineTrace (outcomes : List StageOutcome) : List JobRec :=
  ⟨.queued, 0⟩ :: ⟨.running, 0⟩ :: runStages 0 (stageCheckpoints.zip outcomes)

/-- Modelled from the spec: the snapshot a status query at poll time `t`
observes — the `t`-th snapshot, or the final one after the job has reached
it (a terminal record persists until reclaimed; spec §4.1, §6). -/
def observeAt (trace : List JobRec) (t : Nat) : JobRec :=
  trace.getD (min t (trace.length - 1)) ⟨.queued, 0⟩

lemma runStages_nil_eq (p : Nat) : runStages p [] = [⟨.done, 100⟩] := rfl

lemma runStages_failed_eq (p cp : Nat) (rest : List (Nat × StageOutcome)) :
    runStages p ((cp, .failed) :: rest) = [⟨.error, p⟩] := rfl

lemma runStages_last_ok_eq (p cp : Nat) :
    runStages p [(cp, .ok)] = [⟨.done, 100⟩] := rfl

lemma runStages_last_fallback_eq (p cp : Nat) :
    runStages p [(cp, .fallbackUsed)] = [⟨.done, 100⟩] := rfl

lemma runStages_cons_ok_eq (p cp : Nat) (y : Nat × StageOutcome)
    (rest : List (Nat × StageOutcome)) :
    runStages p ((cp, .ok) :: y :: rest) =
      ⟨.running, cp⟩ :: runStages cp (y :: rest) := rfl

lemma runStages_cons_fallback_eq (p cp : Nat) (y : Nat × StageOutcome)
    (rest : List (Nat × StageOutcome)) :
    runStages p ((cp, .fallbackUsed) :: y :: rest) =
      ⟨.running, cp⟩ :: runStages cp (y :: rest) := rfl

lemma runStages_ne_nil (p : Nat) (l : List (Nat × StageOutcome)) :
    runStages p l ≠ [] := by
  match l with
  | [] => simp [runStages]
  | (cp, o) :: rest => cases o <;> cases rest <;> simp [runStages]

lemma map_fst_zip_sublist {α β : Type} (l₁ : List α) (l₂ : List β) :
    ((l₁.zip l₂).map Prod.fst).Sublist l₁ := by
  induction l₁ generalizing l₂ with
  | nil => simp
  | cons a l₁ ih =>
    cases l₂ with
    | nil => simp
    | cons b l₂ => simpa using List.Sublist.cons₂ a (ih l₂)

lemma runStages_mem_ge (p : Nat) (l : List (Nat × StageOutcome))
    (hs : (p :: l.map Prod.fst).Pairwise (· ≤ ·))
    (h100 : ∀ x ∈ p :: l.map Prod.fst, x ≤ 100) :
    ∀ r ∈ runStages p l, p ≤ r.progress := by
  induction l generalizing p with
  | nil =>
    intro r hr
    simp [runStages] at hr
    subst hr
    exact h100 p (by simp)
  | cons x rest ih =>
    obtain ⟨cp, o⟩ := x
    intro r hr
    cases o with
    | failed => simp [runStages] at hr; subst hr; exact le_refl _
    | ok =>
      cases rest with
      | nil =>
        simp [runStages] at hr; subst hr
        exact h100 p (by simp)
      | cons y rest' =>
        simp only [runStages] at hr
        rcases List.mem_cons.mp hr with h | h
        · subst h
          exact (List.pairwise_cons.mp hs).1 cp (by simp)
        · have hcp : p ≤ cp := (List.pairwise_cons.mp hs).1 cp (by simp)
          have hs' : (cp :: (y :: rest').map Prod.fst).Pairwise (· ≤ ·) := by
            simpa using (List.pairwise_cons.mp hs).2
          have h100' : ∀ z ∈ cp :: (y :: rest').map Prod.fst, z ≤ 100 := by
            intro z hz
            exact h100 z (by simpa using Or.inr hz)
          exact le_trans hcp (ih cp hs' h100' r h)
    | fallbackUsed =>
      cases rest with
      | nil =>
        simp [runStages] at hr; subst hr
        exact h100 p (by simp)
      | cons y rest' =>
        simp only [runStages] at hr
        rcases List.mem_cons.mp hr with h | h
        · subst h
          exact (List.pairwise_cons.mp hs).1 cp (by simp)
        · have hcp : p ≤ cp := (List.pairwise_cons.mp hs).1 cp (by simp)
          have hs' : (cp :: (y :: rest').map Prod.fst).Pairwise (· ≤ ·) := by
            simpa using (List.pairwise_cons.mp hs).2
          have h100' : ∀ z ∈ cp :: (y :: rest').map Prod.fst, z ≤ 100 := by
            intro z hz
            exact h100 z (by simpa using Or.inr hz)
          exact le_trans hcp (ih cp hs' h100' r h)

lemma runStages_pairwise (p : Nat) (l : List (Nat × StageOutcome))
    (hs : (p :: l.map Prod.fst).Pairwise (· ≤ ·))
    (h100 : ∀ x ∈ p :: l.map Prod.fst, x ≤ 100) :
    (runStages p l).Pairwise (fun a b => a.progress ≤ b.progress) := by
  induction l generalizing p with
  | nil => simp [runStages]
  | cons x rest ih =>
    obtain ⟨cp, o⟩ := x
    have hcp : p ≤ cp := (List.pairwise_cons.mp hs).1 cp (by simp)
    have hs' : (cp :: rest.map Prod.fst).Pairwise (· ≤ ·) := by
      simpa using (List.pairwise_cons.mp hs).2
    have h100' : ∀ z ∈ cp :: rest.map Prod.fst, z ≤ 100 := by
      intro z hz
      exact h100 z (by simpa using Or.inr hz)
    cases o with
    | failed => simp [runStages]
    | ok =>
      cases rest with
      | nil => simp [runStages]
      | cons y rest' =>
        simp only [runStages]
        refine List.Pairwise.cons ?_ (ih cp hs' h100')
        intro b hb
        exact runStages_mem_ge cp _ hs' h100' b hb
    | fallbackUsed =>
      cases rest with
      | nil => simp [runStages]
      | cons y rest' =>
        simp only [runStages]
        refine List.Pairwise.cons ?_ (ih cp hs' h100')
        intro b hb
        exact runStages_mem_ge cp _ hs' h100' b hb

lemma runStages_countP (p : Nat) (l : List (Nat × StageOutcome)) :
    (runStages p l).countP (fun r => r.status.isTerminal) = 1 := by
  induction l generalizing p with
  | nil => simp [runStages, JobStatus.isTerminal]
  | cons x rest ih =>
    obtain ⟨cp, o⟩ := x
    cases o with
    | failed => simp [runStages, JobStatus.isTerminal]
    | ok =>
      cases rest with
      | nil => simp [runStages, JobStatus.isTerminal]
      | cons y rest' =>
        rw [runStages_cons_ok_eq, List.countP_cons, ih]
        simp [JobStatus.isTerminal]
    | fallbackUsed =>
      cases rest with
      | nil => simp [runStages, JobStatus.isTerminal]
      | cons y rest' =>
        rw [runStages_cons_fallback_eq, List.countP_cons, ih]
        simp [JobStatus.isTerminal]

lemma runStages_getLast_terminal (p : Nat) (l : List (Nat × StageOutcome)) :
    ∃ r, (runStages p l).getLast? = some r ∧ r.status.isTerminal = true := by
  induction l generalizing p with
  | nil => exact ⟨⟨.done, 100⟩, by simp [runStages], rfl⟩
  | cons x rest ih =>
    obtain ⟨cp, o⟩ := x
    cases o with
    | failed => exact ⟨⟨.error, p⟩, by simp [runStages], rfl⟩
    | ok =>
      cases rest with
      | nil => exact ⟨⟨.done, 100⟩, by simp [runStages], rfl⟩
      | cons y rest' =>
        obtain ⟨r, hr, hterm⟩ := ih cp
        refine ⟨r, ?_, hterm⟩
        obtain ⟨z, zs, hz⟩ := List.exists_cons_of_ne_nil (runStages_ne_nil cp (y :: rest'))
        rw [runStages_cons_ok_eq, hz, List.getLast?_cons_cons, ← hz]
        exact hr
    | fallbackUsed =>
      cases rest with
      | nil => exact ⟨⟨.done, 100⟩, by simp [runStages], rfl⟩
      | cons y rest' =>
        obtain ⟨r, hr, hterm⟩ := ih cp
        refine ⟨r, ?_, hterm⟩
        obtain ⟨z, zs, hz⟩ := List.exists_cons_of_ne_nil (runStages_ne_nil cp (y :: rest'))
        rw [runStages_cons_fallback_eq, hz, List.getLast?_cons_cons, ← hz]
        exact hr

lemma pipelineTrace_zip_pairwise (outcomes : List StageOutcome) :
    ((0 : Nat) :: (stageCheckpoints.zip outcomes).map Prod.fst).Pairwise (· ≤ ·) := by
  have hsub : ((0 : Nat) :: (stageCheckpoints.zip outcomes).map Prod.fst).Sublist
      (0 :: stageCheckpoints) :=
    List.Sublist.cons₂ 0 (map_fst_zip_sublist stageCheckpoints outcomes)
  have hbase : ((0 : Nat) :: stageCheckpoints).Pairwise (· ≤ ·) := by
    simp [stageCheckpoints]
  exact hbase.sublist hsub

lemma pipelineTrace_zip_le100 (outcomes : List StageOutcome) :
    ∀ x ∈ (0 : Nat) :: (stageCheckpoints.zip outcomes).map Prod.fst, x ≤ 100 := by
  intro x hx
  have hsub : ((0 : Nat) :: (stageCheckpoints.zip outcomes).map Prod.fst).Sublist
      (0 :: stageCheckpoints) :=
    List.Sublist.cons₂ 0 (map_fst_zip_sublist stageCheckpoints outcomes)
  have hmem : x ∈ (0 : Nat) :: stageCheckpoints := hsub.subset hx
  simp [stageCheckpoints] at hmem
  omega

lemma pipelineTrace_pairwise (outcomes : List StageOutcome) :
    (pipelineTrace outcomes).Pairwise (fun a b => a.progress ≤ b.progress) := by
  unfold pipelineTrace
  refine List.Pairwise.cons (fun b _ => Nat.zero_le _)
    (List.Pairwise.cons (fun b _ => Nat.zero_le _) ?_)
  exact runStages_pairwise 0 _ (pipelineTrace_zip_pairwise outcomes)
    (pipelineTrace_zip_le100 outcomes)

lemma pipelineTrace_countP (outcomes : List StageOutcome) :
    (pipelineTrace outcomes).countP (fun r => r.status.isTerminal) = 1 := by
  unfold pipelineTrace
  rw [List.countP_cons, List.countP_cons, runStages_countP]
  simp [JobStatus.isTerminal]

lemma pipelineTrace_getLast_terminal (outcomes : List StageOutcome) :
    ∃ r, (pipelineTrace outcomes).getLast? = some r ∧ r.status.isTerminal = true := by
  obtain ⟨r, hr, hterm⟩ :=
    runStages_getLast_terminal 0 (stageCheckpoints.zip outcomes)
  refine ⟨r, ?_, hterm⟩
  obtain ⟨z, zs, hz⟩ :=
    List.exists_cons_of_ne_nil (runStages_ne_nil 0 (stageCheckpoints.zip outcomes))
  unfold pipelineTrace
  rw [hz, List.getLast?_cons_cons, List.getLast?_cons_cons, ← hz, hr]

lemma observeAt_progress_mono (trace : List JobRec) (hne : trace ≠ [])
    (hp : trace.Pairwise (fun a b => a.progress ≤ b.progress))
    {t₁ t₂ : Nat} (h : t₁ ≤ t₂) :
    (observeAt trace t₁).progress ≤ (observeAt trace t₂).progress := by
  have hlen : 0 < trace.length := List.length_pos.mpr hne
  have h₁ : min t₁ (trace.length - 1) < trace.length :=
    lt_of_le_of_lt (min_le_right _ _) (by omega)
  have h₂ : min t₂ (trace.length - 1) < trace.length :=
    lt_of_le_of_lt (min_le_right _ _) (by omega)
  have hmin : min t₁ (trace.length - 1) ≤ min t₂ (trace.length - 1) :=
    min_le_min h le_rfl
  unfold observeAt
  rw [List.getD_eq_getElem?_getD, List.getD_eq_getElem?_getD,
    List.getElem?_eq_getElem h₁, List.getElem?_eq_getElem h₂]
  simp only [Option.getD_some]
  rcases Nat.eq_or_lt_of_le hmin with heq | hlt
  · simp [heq]
  · exact List.pairwise_iff_get.mp hp ⟨_, h₁⟩ ⟨_, h₂⟩ hlt

/-! ## Claim theorems -/

lemma fileAccepted_iff (c : FileCandidate) :
    fileAccepted c = true ↔
      c.type ∈ ACCEPTED_TYPES
        ∨ ∃ ext ∈ ACCEPTED_EXTENSIONS,
            ext.data <:+ c.name.data.map Char.toLower := by
  have hempty : "" ∉ ACCEPTED_TYPES := by decide
  constructor
  · intro h
    simp [fileAccepted] at h
    rcases h with ⟨-, hmem⟩ | hext
    · exact Or.inl hmem
    · exact Or.inr hext
  · intro h
    simp [fileAccepted]
    rcases h with hmem | hext
    · exact Or.inl ⟨ne_of_mem_of_not_mem hmem hempty, hmem⟩
    · exact Or.inr hext

lemma handleFiles_cons (c : FileCandidate) (rest : List FileCandidate) :
    handleFiles (c :: rest) =
      if fileAccepted c then .selected c else .alerted := rfl

/-- C1: for every valid submission, the sequence of progress values observed
by repeated status polling of that job is monotonically non-decreasing, and
the observed status sequence ends in exactly one terminal state (`done` or
`error`).  Formalised over the spec-modelled Pipeline Runner: any two polls
at times `t₁ ≤ t₂` observe non-decreasing progress, the job's snapshot trace
holds exactly one terminal record, and its last record is terminal. -/
theorem C1_polling_progress_monotone_terminal (outcomes : List StageOutcome) :
    (∀ t₁ t₂ : Nat, t₁ ≤ t₂ →
      (observeAt (pipelineTrace outcomes) t₁).progress
        ≤ (observeAt (pipelineTrace outcomes) t₂).progress)
    ∧ (pipelineTrace outcomes).countP (fun r => r.status.isTerminal) = 1
    ∧ (∃ r, (pipelineTrace outcomes).getLast? = some r
        ∧ r.status.isTerminal = true) := by
  refine ⟨?_, pipelineTrace_countP outcomes, pipelineTrace_getLast_terminal outcomes⟩
  intro t₁ t₂ h
  exact observeAt_progress_mono (pipelineTrace outcomes) (by simp [pipelineTrace])
    (pipelineTrace_pairwise outcomes) h

/-- Witness for C1 evaluated on a concrete run whose transcription stage used
the fallback: the polls at times 2 and 7 observe non-decreasing progress. -/
theorem C1_polling_progress_monotone_terminal_witness :
    (observeAt (pipelineTrace [.ok, .fallbackUsed, .ok, .ok, .ok]) 2).progress
      ≤ (observeAt (pipelineTrace [.ok, .fallbackUsed, .ok, .ok, .ok]) 7).progress
    ∧ (pipelineTrace [.ok, .fallbackUsed, .ok, .ok, .ok]).countP
        (fun r => r.status.isTerminal) = 1
    ∧ (∃ r, (pipelineTrace [.ok, .fallbackUsed, .ok, .ok, .ok]).getLast? = some r
        ∧ r.status.isTerminal = true) := by
  obtain ⟨h1, h2, h3⟩ :=
    C1_polling_progress_monotone_terminal [.ok, .fallbackUsed, .ok, .ok, .ok]
  exact ⟨h1 2 7 (by decide), h2, h3⟩

/-- C2: the claim that the clef option ranges over exactly
`treble`, `alto`, `tenor`, `bass` in both the form and the `JobOptions`
clef type fails on the code: the options form offers all four, but the
`ClefChoice` union (`types/job.ts` line 3) admits only three — `bass` is
offered yet not admitted. -/
theorem C2_bass_offered_not_admitted :
    clefsOffered = ["treble", "alto", "tenor", "bass"]
    ∧ "bass" ∈ clefsOffered
    ∧ "bass" ∉ clefChoiceValues
    ∧ clefChoiceValues = ["treble", "alto", "tenor"] := by
  exact ⟨rfl, by decide, by decide, rfl⟩

/-- C3: the client does append `instrument` to every submission's form data
(`page.tsx` line 125), but `instrument` is not among the declared fields of
the `JobOptions` interface (`types/job.ts` lines 33-40), contradicting the
claim's second half (and the code's own usage, which reads
`options.instrument`). -/
theorem C3_instrument_appended_not_declared :
    ("instrument", defaultOptions.instrument) ∈ submitFormData "clip.wav" defaultOptions
    ∧ (∀ fileName options,
        ("instrument", PageOptions.instrument options)
          ∈ submitFormData fileName options)
    ∧ "instrument" ∉ jobOptionsFieldNames := by
  refine ⟨by decide, ?_, by decide⟩
  intro fileName options
  simp [submitFormData]

/-- C4: after a submission returns a job id the client polls at a fixed
1-second interval and stops exactly at the first terminal response: the
consumed response sequence is the longest non-terminal prefix followed by
the first terminal response (when one arrives), and nothing after it. -/
theorem C4_poll_stops_at_first_terminal (responses : List JobStatusResponse) :
    pollIntervalMs = 1000
    ∧ pollTrace responses =
        responses.takeWhile (fun r => !r.status.isTerminal)
          ++ (responses.dropWhile (fun r => !r.status.isTerminal)).take 1 := by
  refine ⟨rfl, ?_⟩
  induction responses with
  | nil => simp [pollTrace]
  | cons r rs ih =>
    cases hb : r.status.isTerminal with
    | true => simp [pollTrace, hb]
    | false => simp [pollTrace, hb, ih]

/-- C5: a candidate file is selected for submission iff its MIME type is one
of the accepted audio types or its lowercased name ends in `.wav`, `.mp3`,
`.m4a` or `.flac`; otherwise the unsupported-type alert is raised and
nothing is selected. -/
theorem C5_acceptance_iff (candidate : FileCandidate) (rest : List FileCandidate) :
    (handleFiles (candidate :: rest) = .selected candidate ↔
      candidate.type ∈ ACCEPTED_TYPES
        ∨ ∃ ext ∈ ACCEPTED_EXTENSIONS,
            ext.data <:+ candidate.name.data.map Char.toLower)
    ∧ (handleFiles (candidate :: rest) = .alerted ↔
      ¬(candidate.type ∈ ACCEPTED_TYPES
        ∨ ∃ ext ∈ ACCEPTED_EXTENSIONS,
            ext.data <:+ candidate.name.data.map Char.toLower)) := by
  rw [handleFiles_cons]
  by_cases hacc : fileAccepted candidate = true
  · have hiff := (fileAccepted_iff candidate).mp hacc
    rw [if_pos hacc]
    refine ⟨⟨fun _ => hiff, fun _ => rfl⟩, ⟨fun h => ?_, fun h => absurd hiff h⟩⟩
    exact absurd h (by simp)
  · have hiff : ¬(candidate.type ∈ ACCEPTED_TYPES
        ∨ ∃ ext ∈ ACCEPTED_EXTENSIONS,
            ext.data <:+ candidate.name.data.map Char.toLower) :=
      fun hor => hacc ((fileAccepted_iff candidate).mpr hor)
    rw [if_neg hacc]
    refine ⟨⟨fun h => ?_, fun hor => absurd hor hiff⟩, ⟨fun _ => hiff, fun _ => rfl⟩⟩
    exact absurd h (by simp)

/-- C6: the `tempo` field appears in the submitted form data iff a tempo is
set (given the form's 40-240 constraint), and `force_key` appears iff a
non-empty key was entered; the form's change handler stores an empty key
input as `null`, and the tempo input carries `min=40`, `max=240`. -/
theorem C6_optional_fields_iff (fileName : String) (options : PageOptions)
    (htempo : ∀ t, options.tempo = some t → tempoInputMin ≤ t ∧ t ≤ tempoInputMax)
    (hkey : options.force_key ≠ some "") :
    ("tempo" ∈ (submitFormData fileName options).map Prod.fst ↔
        options.tempo.isSome = true)
    ∧ ("force_key" ∈ (submitFormData fileName options).map Prod.fst ↔
        options.force_key.isSome = true)
    ∧ forceKeyFromInput "" = none
    ∧ (∀ s : String, s ≠ "" → forceKeyFromInput s = some s)
    ∧ tempoInputMin = 40 ∧ tempoInputMax = 240 := by
  obtain ⟨clef, instrument, tempo, force_key, dts, q, lq⟩ := options
  dsimp only at htempo hkey ⊢
  refine ⟨?_, ?_, rfl, ?_, rfl, rfl⟩
  · cases tempo with
    | none =>
      cases force_key with
      | none => simp [submitFormData]
      | some k =>
        have hk : ¬k = "" := fun he => hkey (by rw [he])
        simp [submitFormData, hk]
    | some t =>
      have ht := htempo t rfl
      have htz : ¬t = 0 := by
        simp only [tempoInputMin, tempoInputMax] at ht; omega
      simp [submitFormData, htz]
  · cases force_key with
    | none =>
      cases tempo with
      | none => simp [submitFormData]
      | some t =>
        by_cases htz : t = 0
        · simp [submitFormData, htz]
        · simp [submitFormData, htz]
    | some k =>
      have hk : ¬k = "" := fun he => hkey (by rw [he])
      simp [submitFormData, hk]
  · intro s hs
    simp [forceKeyFromInput, hs]

/-- Witness for C6 at a concrete options value with `tempo = 120` and
`force_key = "C major"`. -/
theorem C6_optional_fields_iff_witness :
    ("tempo" ∈ (submitFormData "clip.wav"
        { defaultOptions with tempo := some 120, force_key := some "C major" }).map
          Prod.fst ↔
      (Option.some (120 : Int)).isSome = true)
    ∧ ("force_key" ∈ (submitFormData "clip.wav"
        { defaultOptions with tempo := some 120, force_key := some "C major" }).map
          Prod.fst ↔
      (Option.some "C major").isSome = true) := by
  obtain ⟨h1, h2, -⟩ := C6_optional_fields_iff "clip.wav"
    { defaultOptions with tempo := some 120, force_key := some "C major" }
    (by intro t ht; simp at ht; subst ht; exact ⟨by decide, by decide⟩)
    (by simp)
  exact ⟨h1, h2⟩

/-- C7: `uploadJobWithProgress` resolves a 2xx response with the parsed
`{job_id}` body and rejects a non-2xx response with the body's `detail` when
the body is JSON carrying one, and with `Upload failed with status N`
otherwise (JSON without `detail`, or a body that is not JSON). -/
theorem C7_upload_outcome (status : Nat) (d : String)
    (detail : Option String) (job_id : Option String) :
    ((200 ≤ status ∧ status < 300) →
      onloadOutcome status (.json detail job_id) = .resolved job_id)
    ∧ (¬(200 ≤ status ∧ status < 300) →
      onloadOutcome status (.json (some d) job_id) = .rejectedMsg d
      ∧ onloadOutcome status (.json none job_id) =
          .rejectedMsg ("Upload failed with status " ++ toString status)
      ∧ onloadOutcome status .notJson =
          .rejectedMsg ("Upload failed with status " ++ toString status)) := by
  constructor
  · intro h
    simp [onloadOutcome, if_pos h]
  · intro h
    refine ⟨?_, ?_, ?_⟩ <;> simp [onloadOutcome, if_neg h, Option.getD]

/-- Witness for C7: a 201 response resolves with its `job_id`, and a 422
response whose JSON body carries `detail` rejects with that detail. -/
theorem C7_upload_outcome_witness :
    onloadOutcome 201 (.json none (some "abc123")) = .resolved (some "abc123")
    ∧ onloadOutcome 422 (.json (some "File too large") none) =
        .rejectedMsg "File too large" := by
  refine ⟨(C7_upload_outcome 201 "x" none (some "abc123")).1 (by omega), ?_⟩
  exact ((C7_upload_outcome 422 "File too large" none none).2 (by omega)).1

/-- C8: the rendered progress-bar width is pinned to 100 percent whenever the
status is `done`, regardless of the reported progress, and equals the
reported progress for the non-terminal statuses `queued` and `running`. -/
theorem C8_bar_width_pinned (progress : Int) :
    barWidth .done progress = some 100
    ∧ barWidth .queued progress = some progress
    ∧ barWidth .running progress = some progress :=
  ⟨rfl, rfl, rfl⟩

/-- C9: client-side acceptance depends only on the candidate's MIME type and
name — two files equal in both are accepted or rejected together whatever
their sizes — and a 25MB file named `recording.wav` (empty MIME type) is
accepted and selected for upload. -/
theorem C9_acceptance_ignores_size :
    (∀ c₁ c₂ : FileCandidate, c₁.type = c₂.type → c₁.name = c₂.name →
      fileAccepted c₁ = fileAccepted c₂)
    ∧ (∀ (c : FileCandidate) (rest : List FileCandidate),
      handleFiles (c :: rest) = if fileAccepted c then .selected c else .alerted)
    ∧ fileAccepted ⟨"", "recording.wav", 25 * 1024 * 1024⟩ = true
    ∧ handleFiles [⟨"", "recording.wav", 25 * 1024 * 1024⟩] =
        .selected ⟨"", "recording.wav", 25 * 1024 * 1024⟩ := by
  refine ⟨?_, fun c rest => handleFiles_cons c rest, ?_, ?_⟩
  · intro c₁ c₂ h₁ h₂
    simp [fileAccepted, h₁, h₂]
  · decide
  · decide

/-- Witness for C9: a 100-byte and a 25MB file with identical type and name
receive the same acceptance decision. -/
theorem C9_acceptance_ignores_size_witness :
    fileAccepted ⟨"audio/wav", "take1.wav", 100⟩
      = fileAccepted ⟨"audio/wav", "take1.wav", 25 * 1024 * 1024⟩ :=
  C9_acceptance_ignores_size.1 ⟨"audio/wav", "take1.wav", 100⟩
    ⟨"audio/wav", "take1.wav", 25 * 1024 * 1024⟩ rfl rfl

/-- C10: the submit button and every options-form control are disabled while
an upload is in flight or a submitted job's last observed status is
non-terminal, and they re-enable exactly on a terminal observation or an
upload failure: `disableControls` holds iff uploading or an active
non-terminal job exists, it forces the button and all form controls off,
it holds from submission start through upload success, it equals the
non-terminality of each polled status afterwards, and it clears when the
upload fails. -/
theorem C10_single_inflight_submission (u : Bool) (jobId : Option String)
    (status : JobStatus) (f : Option FileCandidate) (st : PageState)
    (jid msg : String) (r : JobStatusResponse) :
    (disableControls u jobId status = true ↔
      (u = true ∨ (jobId.isSome = true ∧ status ≠ .done ∧ status ≠ .error)))
    ∧ (disableControls u jobId status = true →
      submitButtonDisabled u jobId status f = true
      ∧ ∀ b ∈ optionsFormControlDisabledAttrs (disableControls u jobId status),
          b = true)
    ∧ (submitStart st).controlsDisabled = true
    ∧ (uploadSucceeded (submitStart st) jid).controlsDisabled = true
    ∧ (observeStatus (uploadSucceeded (submitStart st) jid) r).controlsDisabled
        = !r.status.isTerminal
    ∧ (uploadFailed (submitStart st) msg).controlsDisabled = false := by
  refine ⟨?_, ?_, ?_, ?_, ?_, ?_⟩
  · simp only [disableControls, Bool.or_eq_true, Bool.and_eq_true,
      decide_eq_true_eq]
    tauto
  · intro h
    refine ⟨?_, ?_⟩
    · simp [submitButtonDisabled, h]
    · intro b hb
      rw [h] at hb
      simpa [optionsFormControlDisabledAttrs] using hb
  · simp [PageState.controlsDisabled, submitStart, disableControls]
  · simp [PageState.controlsDisabled, uploadSucceeded, submitStart, disableControls]
  · cases hs : r.status <;>
      simp [PageState.controlsDisabled, observeStatus, uploadSucceeded,
        submitStart, disableControls, hs, JobStatus.isTerminal]
  · simp [PageState.controlsDisabled, uploadFailed, submitStart, disableControls]

/-- Witness for C10 at a concrete in-flight state: an active job with a
`running` status keeps the button and the form controls disabled. -/
theorem C10_single_inflight_submission_witness :
    submitButtonDisabled false (some "job-1") .running
        (some ⟨"audio/wav", "a.wav", 10⟩) = true
    ∧ ∀ b ∈ optionsFormControlDisabledAttrs
        (disableControls false (some "job-1") .running), b = true := by
  exact (C10_single_inflight_submission false (some "job-1") .running
    (some ⟨"audio/wav", "a.wav", 10⟩)
    ⟨none, none, .queued, 0, false, none⟩ "job-1" "msg"
    ⟨.running, 10, none⟩).2.1 (by decide)

end ScoreForge
